import Mathlib

/-!
Verification of the cub-to-obj conversion pipeline (src/cub-to-obj.js).

The JavaScript source is shallowly embedded: buffers become `List Nat`
(byte values), JS numbers used as array indices / color indices become
`Int` (the code stores the sentinel `-1`), and strings are Lean `String`s.
JS object key-iteration order (`Object.values`) is modelled explicitly:
own property keys that are array indices (canonical numeric strings whose
value is below 2^32 - 1) are iterated first in ascending numeric order,
and all remaining string keys follow in insertion order.
-/

set_option maxRecDepth 100000

namespace Cub

/-- Tool version (`const version`). -/
def version : String := "0.0.1"

/-- Precision used when saving to OBJ and MTL files (`const precision`). -/
def precision : Nat := 6

/-- The faces that make up a cube assuming the first vertex is 1
(`const defaultCubeFaces`). -/
def defaultCubeFaces : List (List Nat) :=
  [[1, 2, 4, 3],
   [3, 4, 8, 7],
   [7, 8, 6, 5],
   [5, 6, 2, 1],
   [3, 7, 5, 1],
   [8, 4, 2, 6]]

/-- Recursion worker for `chunkBuffer`: while the remaining buffer is
nonempty, emit `slice(i, i + chunkSize)` (that is, `take chunkSize` of
the remaining suffix) and advance by `chunkSize`.  The fuel argument
makes the recursion structural; with a positive `chunkSize` every step
consumes at least one element, so fuel equal to the buffer length is
enough and the result does not depend on it.  With `chunkSize = 0` the
JS loop does not terminate; the embedding returns `[]` in that (never
exercised) case so the function is total. -/
def chunkBufferGo : Nat → List Nat → Nat → List (List Nat)
  | 0, _, _ => []
  | _ + 1, [], _ => []
  | fuel + 1, b :: rest, chunkSize =>
    if chunkSize = 0 then []
    else (b :: rest).take chunkSize ::
      chunkBufferGo fuel ((b :: rest).drop chunkSize) chunkSize

/-- Chunk a buffer into smaller buffers (`chunkBuffer`), embedding the JS
loop `for (let i = 0; i < len; i += chunkSize) out.push(buffer.slice(i, i + chunkSize))`. -/
def chunkBuffer (buffer : List Nat) (chunkSize : Nat) : List (List Nat) :=
  chunkBufferGo buffer.length buffer chunkSize

/-- Generate a material name (`matName`): the template
`name-mat-index` with the index printed in decimal (`String(index)`
for an integral JS number agrees with `Int.repr`). -/
def matName (index : Int) (name : String) : String :=
  name ++ "-mat-" ++ Int.repr index

/-- Left-pad the decimal representation of `n` with zeros to `precision`
digits; renders the fractional digits produced by `Number.toFixed`. -/
def padPrecision (n : Nat) : String :=
  let s := Nat.repr n
  String.mk (List.replicate (precision - s.length) '0') ++ s

/-- Models the JS expression `(x === 0 ? 0 : x / 255).toFixed(precision)`
applied to a byte value `x` (0-255).  The ternary only short-circuits the
division (`0 / 255` is `0` anyway); `toFixed` is applied to the ternary's
result in both branches, so a zero byte renders as `0.000000`.
`toFixed(6)` of the binary64 value of `x / 255` equals the 6-decimal
rounding of the exact rational `x / 255`: `10^6 * x / 255` is never
closer than `1/102` to a half-integer (a tie would need `51 ∣ x`, and for
those multiples of 51 the value is an exact integer), while the binary64
representation error is below `2^-33`, so rounding to the nearest
6-decimal value cannot be flipped.  The nearest integer to
`10^6 * x / 255 = 2 * 10^6 * x / 510` is `(2 * 10^6 * x + 255) / 510`
by integer division. -/
def kdComponent (x : Nat) : String :=
  let n := (2 * 10 ^ precision * x + 255) / 510
  Nat.repr (n / 10 ^ precision) ++ "." ++ padPrecision (n % 10 ^ precision)

/-- One material block of `generateMTL`: a `newmtl` line followed by a
`Kd` line joining the already-formatted components with spaces. -/
def mtlBlock (name : String) (i : Nat) (material : List String) : String :=
  "newmtl " ++ matName (Int.ofNat i) name ++ "\n" ++
    "Kd " ++ String.intercalate " " material ++ "\n"

/-- The block list of `generateMTL`:
`zeroToOne.map((material, i) => ...)`, the JS callback index rendered as
a counter threaded through the recursion. -/
def mtlBlocks (name : String) : List (List String) → Nat → List String
  | [], _ => []
  | material :: rest, i => mtlBlock name i material :: mtlBlocks name rest (i + 1)

/-- Generate a valid MTL string from the given colors (`generateMTL`).
`colors.map(color => Array.from(color).map(x => (x === 0 ? 0 : x / 255).toFixed(precision)))`
followed by one `newmtl` + `Kd` block per color, joined with a newline
(each block already ends in a newline, so blocks are blank-line
separated). -/
def generateMTL (colors : List (List Nat)) (name : String) : String :=
  let zeroToOne := colors.map (fun color => color.map kdComponent)
  "# CUB to OBJ v" ++ version ++ "\n" ++
    String.intercalate "\n" (mtlBlocks name zeroToOne 0)

/-- Add a value to the x component of a 3d point (`addX`). -/
def addX (point : Nat × Nat × Nat) (x : Nat) : Nat × Nat × Nat :=
  (point.1 + x, point.2.1, point.2.2)

/-- Add a value to the y component of a 3d point (`addY`). -/
def addY (point : Nat × Nat × Nat) (y : Nat) : Nat × Nat × Nat :=
  (point.1, point.2.1 + y, point.2.2)

/-- Add a value to the z component of a 3d point (`addZ`). -/
def addZ (point : Nat × Nat × Nat) (z : Nat) : Nat × Nat × Nat :=
  (point.1, point.2.1, point.2.2 + z)

/-- Turn a point in space into the vertices and faces that make up a cube
at that point (`pointToCube`).  The face offset is
`faceOffset * vertices.length` with `vertices.length = 8`. -/
def pointToCube (point : Nat × Nat × Nat) (faceOffset : Nat) :
    List (Nat × Nat × Nat) × List (List Nat) :=
  let vertices :=
    [point,
     addX point 1,
     addY point 1,
     addY (addX point 1) 1,
     addZ point 1,
     addZ (addX point 1) 1,
     addZ (addY point 1) 1,
     addZ (addY (addX point 1) 1) 1]
  let offset := faceOffset * vertices.length
  let faces := defaultCubeFaces.map (fun face => face.map (fun value => value + offset))
  (vertices, faces)

/-- Turn a 3d index into a 1d index (`xyzToIndex`).  The `height`
parameter is accepted and unused, as in the source. -/
def xyzToIndex (x y z width depth _height : Nat) : Nat :=
  x + width * (y + depth * z)

/-- The traversal order of the triple loop in `generateOBJ`:
`x` outermost, then `y`, then `z` innermost. -/
def scanPoints (width depth height : Nat) : List (Nat × Nat × Nat) :=
  (List.range width).flatMap (fun x =>
    (List.range depth).flatMap (fun y =>
      (List.range height).map (fun z => (x, y, z))))

/-- The value `colorIndicies[xyzToIndex(x, y, z, ...)]` read by the scan
loop: `none` models the JS `undefined` produced by an out-of-range array
read. -/
def cellKeyAt (colorIndicies : List Int) (width depth height : Nat)
    (p : Nat × Nat × Nat) : Option Int :=
  colorIndicies[xyzToIndex p.1 p.2.1 p.2.2 width depth height]?

/-- Keep the first occurrence of each element, in order: the insertion
order of keys into a JS object built left to right. -/
def firstAppearance {α : Type} [DecidableEq α] (l : List α) : List α :=
  l.foldl (fun acc a => if a ∈ acc then acc else acc ++ [a]) []

/-- Whether the JS property key `String(v)` (or `"undefined"` for `none`)
is an array index: a canonical numeric string with value below
`2^32 - 1`.  Non-negative integral numbers below that bound qualify;
negative numbers stringify with a minus sign and `undefined` is not
numeric. -/
def jsNumericKey : Option Int → Bool
  | some v => decide (0 ≤ v) && decide (v < 4294967295)
  | none => false

/-- Numeric value of a group key, used to order array-index keys. -/
def keyVal : Option Int → Int
  | some v => v
  | none => 0

/-- Insertion step of a stable insertion sort by a numeric measure. -/
def insertLe {α : Type} (f : α → Nat) (a : α) : List α → List α
  | [] => [a]
  | b :: rest => if f a ≤ f b then a :: b :: rest else b :: insertLe f a rest

/-- Stable insertion sort by a numeric measure; models the ascending
numeric iteration order of array-index keys of a JS object (the keys
being pairwise distinct, any ascending sort produces the JS order). -/
def sortLe {α : Type} (f : α → Nat) (l : List α) : List α :=
  l.foldr (insertLe f) []

/-- The distinct color-index keys inserted into `byColor`, in insertion
order: the scan visits all points, skips values strictly equal to `-1`,
and creates a key on first sight. -/
def firstKeys (width depth height : Nat) (colorIndicies : List Int) :
    List (Option Int) :=
  firstAppearance
    (((scanPoints width depth height).map
        (cellKeyAt colorIndicies width depth height)).filter
      (fun k => k != some (-1)))

/-- The order in which `Object.values(byColor)` yields the groups:
array-index keys in ascending numeric order first, then the remaining
keys in insertion order. -/
def orderedKeys (width depth height : Nat) (colorIndicies : List Int) :
    List (Option Int) :=
  let ks := firstKeys width depth height colorIndicies
  sortLe (fun k => (keyVal k).toNat) (ks.filter jsNumericKey) ++
    ks.filter (fun k => !jsNumericKey k)

/-- The `byColor` groups in `Object.values` order: each key paired with
the scan-ordered list of points carrying it. -/
def objGroups (width depth height : Nat) (colorIndicies : List Int) :
    List (Option Int × List (Nat × Nat × Nat)) :=
  (orderedKeys width depth height colorIndicies).map
    (fun k => (k, (scanPoints width depth height).filter
      (fun p => cellKeyAt colorIndicies width depth height p == k)))

/-- The text of the key as interpolated by the JS template (`String(v)`
for a number, `"undefined"` for an out-of-range read). -/
def keyName : Option Int → String
  | some v => Int.repr v
  | none => "undefined"

/-- One cube per point of a group
(`points.map((point, i) => pointToCube(point, cubeIndex++))`): the
running global counter `cubeIndex` is threaded through the recursion, so
the i-th point of a group whose first cube receives global index `start`
is cubified with `start + i`. -/
def groupCubes :
    List (Nat × Nat × Nat) → Nat →
      List (List (Nat × Nat × Nat) × List (List Nat))
  | [], _ => []
  | p :: rest, start => pointToCube p start :: groupCubes rest (start + 1)

/-- Render one `v x y z` line. -/
def vertexLine (v : Nat × Nat × Nat) : String :=
  "v " ++ Nat.repr v.1 ++ " " ++ Nat.repr v.2.1 ++ " " ++ Nat.repr v.2.2 ++ "\n"

/-- Render one `f i j k l` line. -/
def faceLine (f : List Nat) : String :=
  "f " ++ String.intercalate " " (f.map Nat.repr) ++ "\n"

/-- Render a single object block of `generateOBJ`: header, all vertex
lines (`allVertices` is the concatenation of the group's cubes'
vertices), `usemtl`, `s off`, all face lines (`allFaces` likewise). -/
def objBlock (name : String) (k : Option Int)
    (points : List (Nat × Nat × Nat)) (start : Nat) : String :=
  "o " ++ name ++ "-obj-" ++ keyName k ++ "\n" ++
    String.join ((((groupCubes points start).map Prod.fst).flatten).map vertexLine) ++
    "usemtl " ++ name ++ "-mat-" ++ keyName k ++ "\n" ++
    "s off\n" ++
    String.join ((((groupCubes points start).map Prod.snd).flatten).map faceLine)

/-- Render the object blocks in order, threading the global running cube
counter (`cubeIndex` is never reset between groups: each group starts
where the previous one stopped). -/
def renderObjects (name : String) :
    List (Option Int × List (Nat × Nat × Nat)) → Nat → List String
  | [], _ => []
  | g :: rest, start =>
    objBlock name g.1 g.2 start :: renderObjects name rest (start + g.2.length)

/-- Generate a valid OBJ string from the given data (`generateOBJ`). -/
def generateOBJ (width depth height : Nat) (colorIndicies : List Int)
    (name : String) : String :=
  "# CUB to OBJ v" ++ version ++ "\n" ++ "mtllib " ++ name ++ ".mtl\n" ++
    String.intercalate "\n"
      (renderObjects name (objGroups width depth height colorIndicies) 0)

/-- All points rendered by `generateOBJ`, in emission order: the
concatenation of the groups' point lists in block order. -/
def allGroupPoints (width depth height : Nat) (colorIndicies : List Int) :
    List (Nat × Nat × Nat) :=
  ((objGroups width depth height colorIndicies).map Prod.snd).flatten

/-- All cubes rendered by `generateOBJ`, in emission order, threading the
global cube counter exactly as `renderObjects` does (each group's cubes
start where the previous group's stopped). -/
def allCubes :
    List (Option Int × List (Nat × Nat × Nat)) → Nat →
      List (List (Nat × Nat × Nat) × List (List Nat))
  | [], _ => []
  | g :: rest, start => groupCubes g.2 start ++ allCubes rest (start + g.2.length)

/-- The material names referenced by the `usemtl` line of each object
block of `generateOBJ`, in block order (the very string `objBlock`
interpolates after `usemtl `). -/
def objUsemtlNames (width depth height : Nat) (colorIndicies : List Int)
    (name : String) : List String :=
  (objGroups width depth height colorIndicies).map
    (fun g => name ++ "-mat-" ++ keyName g.1)

/-- The material names declared by the `newmtl` lines of `generateMTL`,
in block order (the very string `mtlBlock` interpolates after
`newmtl `). -/
def mtlNewmtlNames (colors : List (List Nat)) (name : String) : List String :=
  (List.range colors.length).map (fun i => matName (Int.ofNat i) name)

/-- The hex key of the black (transparent) color (`'000000'`); under the
embedding of hex keys by the byte lists themselves, the key equals the
byte triple. -/
def blackKey : List Nat := [0, 0, 0]

/-- The fold at the heart of `isolateColors`: walk the cells, keep an
insertion-ordered association list from color (standing for its hex key;
`Buffer.toString('hex')` is injective, so key equality is byte-list
equality) to the assigned index, and emit one `Int` index per cell. -/
def isolateColorsAux :
    List (List Nat) → List (List Nat × Nat) → Nat →
      List (List Nat × Nat) × List Int
  | [], m, _ => (m, [])
  | color :: rest, m, index =>
    if color = blackKey then
      let r := isolateColorsAux rest m index
      (r.1, -1 :: r.2)
    else
      match m.lookup color with
      | some existingIndex =>
        let r := isolateColorsAux rest m index
        (r.1, (existingIndex : Int) :: r.2)
      | none =>
        let r := isolateColorsAux rest (m ++ [(color, index)]) (index + 1)
        (r.1, (index : Int) :: r.2)

/-- Numeric value of an all-decimal hex key, read as a decimal number
(two digits per byte). -/
def keyNum (c : List Nat) : Nat :=
  c.foldl (fun acc b => acc * 100 + b / 16 * 10 + b % 16) 0

/-- Whether the hex key of a color byte list is a JS array index:
every hex digit must be a decimal digit (both nibbles of every byte at
most 9), the leading digit must not be 0 (high nibble of the first byte
at least 1), and the numeric value must be below `2^32 - 1`. -/
def hexKeyIsArrayIndex (c : List Nat) : Bool :=
  match c with
  | [] => false
  | b :: rest =>
    decide (1 ≤ b / 16) && decide (b / 16 ≤ 9) && decide (b % 16 ≤ 9) &&
      rest.all (fun x => decide (x / 16 ≤ 9) && decide (x % 16 ≤ 9)) &&
      decide (keyNum (b :: rest) < 4294967295)

/-- `Object.values` of the `uniqueColors` object: entries whose hex key
is an array index come first in ascending numeric order, the remaining
entries follow in insertion order. -/
def objectValuesColors (m : List (List Nat × Nat)) : List (List Nat × Nat) :=
  sortLe (fun e => keyNum e.1) (m.filter (fun e => hexKeyIsArrayIndex e.1)) ++
    m.filter (fun e => !hexKeyIsArrayIndex e.1)

/-- Isolate unique colors and get a list of references to that array
(`isolateColors`). -/
def isolateColors (inputColors : List (List Nat)) :
    List (List Nat) × List Int :=
  let r := isolateColorsAux inputColors [] 0
  ((objectValuesColors r.1).map (fun e => e.1), r.2)

/-- `buffer.readUInt32LE(offset)`: little-endian unsigned 32-bit read;
Node throws `ERR_OUT_OF_RANGE` unless `offset + 4 <= length`, modelled
by `none`. -/
def readUInt32LE (data : List Nat) (offset : Nat) : Option Nat :=
  if offset + 4 ≤ data.length then
    some (data.getD offset 0 + data.getD (offset + 1) 0 * 256 +
      data.getD (offset + 2) 0 * 65536 + data.getD (offset + 3) 0 * 16777216)
  else none

/-- Convert the binary data of a CUB file to an OBJ string and an MTL
string (`convertCub`); a failed dimension read aborts the conversion
with no output, modelled by `none`. -/
def convertCub (data : List Nat) (name : String) : Option (String × String) :=
  match readUInt32LE data 0, readUInt32LE data 4, readUInt32LE data 8 with
  | some width, some depth, some height =>
    let colors := chunkBuffer (data.drop 12) 3
    let r := isolateColors colors
    some (generateOBJ width depth height r.2 name, generateMTL r.1 name)
  | _, _, _ => none

/-! ### Helper lemmas: `chunkBuffer` -/

lemma chunkBufferGo_flatten {c : Nat} (hc : 0 < c) :
    ∀ fuel buf, buf.length ≤ fuel → (chunkBufferGo fuel buf c).flatten = buf := by
  intro fuel
  induction fuel with
  | zero =>
    intro buf h
    obtain rfl : buf = [] := List.length_eq_zero.mp (Nat.le_zero.mp h)
    rfl
  | succ n ih =>
    intro buf h
    cases buf with
    | nil => rfl
    | cons b rest =>
      have hlen : ((b :: rest).drop c).length ≤ n := by
        simp only [List.length_drop, List.length_cons]
        simp only [List.length_cons] at h
        omega
      simp only [chunkBufferGo, if_neg (Nat.pos_iff_ne_zero.mp hc),
        List.flatten_cons, ih _ hlen, List.take_append_drop]

lemma chunkBufferGo_mem_length {c : Nat} (hc : 0 < c) :
    ∀ fuel buf, buf.length ≤ fuel →
      ∀ ch ∈ chunkBufferGo fuel buf c, 1 ≤ ch.length ∧ ch.length ≤ c := by
  intro fuel
  induction fuel with
  | zero => intro buf _ ch hch; simp [chunkBufferGo] at hch
  | succ n ih =>
    intro buf h ch hch
    cases buf with
    | nil => simp [chunkBufferGo] at hch
    | cons b rest =>
      simp only [chunkBufferGo, if_neg (Nat.pos_iff_ne_zero.mp hc),
        List.mem_cons] at hch
      rcases hch with rfl | hch
      · constructor <;> simp only [List.length_take, List.length_cons] <;> omega
      · exact ih _ (by simp only [List.length_drop, List.length_cons] at *; omega) ch hch

lemma chunkBufferGo_nil (fuel c : Nat) : chunkBufferGo fuel [] c = [] := by
  cases fuel <;> rfl

lemma chunkBufferGo_dropLast {c : Nat} (hc : 0 < c) :
    ∀ fuel buf, buf.length ≤ fuel →
      ∀ ch ∈ (chunkBufferGo fuel buf c).dropLast, ch.length = c := by
  intro fuel
  induction fuel with
  | zero => intro buf _ ch hch; simp [chunkBufferGo] at hch
  | succ n ih =>
    intro buf h ch hch
    cases buf with
    | nil => simp [chunkBufferGo] at hch
    | cons b rest =>
      simp only [chunkBufferGo, if_neg (Nat.pos_iff_ne_zero.mp hc)] at hch
      cases htail : chunkBufferGo n ((b :: rest).drop c) c with
      | nil => rw [htail] at hch; simp at hch
      | cons t ts =>
        rw [htail] at hch
        have hdrop : (b :: rest).drop c ≠ [] := by
          intro he
          rw [he, chunkBufferGo_nil] at htail
          exact List.cons_ne_nil t ts htail.symm
        have hlt : c < (b :: rest).length := by
          by_contra hle
          exact hdrop (List.drop_eq_nil_of_le (by omega))
        rcases (List.mem_cons).mp hch with rfl | hch2
        · simp only [List.length_take]
          omega
        · have hrec := ih ((b :: rest).drop c)
            (by simp only [List.length_drop, List.length_cons] at *; omega)
          rw [htail] at hrec
          exact hrec ch hch2

lemma chunkBufferGo_getLastD {c : Nat} (hc : 0 < c) :
    ∀ fuel buf, buf.length ≤ fuel → buf.length % c ≠ 0 →
      ((chunkBufferGo fuel buf c).getLastD []).length = buf.length % c := by
  intro fuel
  induction fuel with
  | zero =>
    intro buf h hr
    obtain rfl : buf = [] := List.length_eq_zero.mp (Nat.le_zero.mp h)
    simp at hr
  | succ n ih =>
    intro buf h hr
    cases buf with
    | nil => simp at hr
    | cons b rest =>
      simp only [chunkBufferGo, if_neg (Nat.pos_iff_ne_zero.mp hc)]
      rw [List.getLastD_cons]
      cases htail : chunkBufferGo n ((b :: rest).drop c) c with
      | nil =>
        have hdrop : (b :: rest).drop c = [] := by
          cases hd : (b :: rest).drop c with
          | nil => rfl
          | cons u us =>
            cases n with
            | zero =>
              have : (b :: rest).length ≤ 1 := h
              have : (b :: rest).drop c = [] :=
                List.drop_eq_nil_of_le (by omega)
              rw [hd] at this
              exact absurd this (List.cons_ne_nil u us)
            | succ m =>
              rw [hd] at htail
              simp only [chunkBufferGo,
                if_neg (Nat.pos_iff_ne_zero.mp hc)] at htail
              exact absurd htail (List.cons_ne_nil _ _)
        have hle : (b :: rest).length ≤ c := by
          have := congrArg List.length hdrop
          simp only [List.length_drop, List.length_nil, List.length_cons] at this
          simp only [List.length_cons]
          omega
        have hltc : (b :: rest).length < c := by
          rcases Nat.lt_or_ge (b :: rest).length c with hlt | hge
          · exact hlt
          · have : (b :: rest).length = c := by omega
            rw [this] at hr
            simp at hr
        simp only [List.getLastD, List.length_take]
        rw [Nat.mod_eq_of_lt hltc]
        omega
      | cons t ts =>
        have hdrop : (b :: rest).drop c ≠ [] := by
          intro he
          rw [he, chunkBufferGo_nil] at htail
          exact List.cons_ne_nil t ts htail.symm
        have hcle : c ≤ (b :: rest).length := by
          by_contra hgt
          exact hdrop (List.drop_eq_nil_of_le (by omega))
        have hmod : ((b :: rest).drop c).length % c = (b :: rest).length % c := by
          simp only [List.length_drop]
          conv_rhs => rw [← Nat.sub_add_cancel hcle]
          rw [Nat.add_mod_right]
        have hrec := ih ((b :: rest).drop c)
          (by simp only [List.length_drop, List.length_cons] at *; omega)
          (by rw [hmod]; exact hr)
        rw [htail] at hrec
        rw [List.getLastD_cons] at hrec
        rw [List.getLastD_cons, hrec, hmod]

/-! ### Claim C9: chunking is size-faithful and lossless -/

/-- C9.  For every buffer and positive chunk size, `chunkBuffer` returns
chunks whose in-order concatenation is the input, every chunk except
possibly the last has exactly the chunk size, and every chunk (including
the last) has length between 1 and the chunk size. -/
theorem C9_chunkBuffer (buffer : List Nat) (chunkSize : Nat)
    (hc : 0 < chunkSize) :
    (chunkBuffer buffer chunkSize).flatten = buffer ∧
    (∀ ch ∈ (chunkBuffer buffer chunkSize).dropLast, ch.length = chunkSize) ∧
    (∀ ch ∈ chunkBuffer buffer chunkSize,
      1 ≤ ch.length ∧ ch.length ≤ chunkSize) :=
  ⟨chunkBufferGo_flatten hc buffer.length buffer le_rfl,
   chunkBufferGo_dropLast hc buffer.length buffer le_rfl,
   chunkBufferGo_mem_length hc buffer.length buffer le_rfl⟩

/-- Witness for C9 at the 4-byte buffer `[1, 2, 3, 4]` with chunk size 3:
the concatenation conjunct is taken from the theorem itself and the
chunk shape is checked concretely. -/
theorem C9_chunkBuffer_witness :
    (chunkBuffer [1, 2, 3, 4] 3).flatten = [1, 2, 3, 4] ∧
    chunkBuffer [1, 2, 3, 4] 3 = [[1, 2, 3], [4]] :=
  ⟨(C9_chunkBuffer [1, 2, 3, 4] 3 (by decide)).1, by decide⟩

/-! ### Helper lemmas: `isolateColors` -/

lemma aux_cons_black {color : List Nat} {rest : List (List Nat)}
    {m : List (List Nat × Nat)} {i : Nat} (hb : color = blackKey) :
    isolateColorsAux (color :: rest) m i =
      ((isolateColorsAux rest m i).1, -1 :: (isolateColorsAux rest m i).2) := by
  simp [isolateColorsAux, hb]

lemma aux_cons_found {color : List Nat} {rest : List (List Nat)}
    {m : List (List Nat × Nat)} {i j : Nat} (hb : color ≠ blackKey)
    (hl : m.lookup color = some j) :
    isolateColorsAux (color :: rest) m i =
      ((isolateColorsAux rest m i).1,
        (j : Int) :: (isolateColorsAux rest m i).2) := by
  simp [isolateColorsAux, hb, hl]

lemma aux_cons_new {color : List Nat} {rest : List (List Nat)}
    {m : List (List Nat × Nat)} {i : Nat} (hb : color ≠ blackKey)
    (hl : m.lookup color = none) :
    isolateColorsAux (color :: rest) m i =
      ((isolateColorsAux rest (m ++ [(color, i)]) (i + 1)).1,
        (i : Int) :: (isolateColorsAux rest (m ++ [(color, i)]) (i + 1)).2) := by
  simp [isolateColorsAux, hb, hl]

lemma lookup_mem_pair :
    ∀ {m : List (List Nat × Nat)} {c : List Nat} {j : Nat},
      m.lookup c = some j → (c, j) ∈ m := by
  intro m
  induction m with
  | nil => intro c j h; simp [List.lookup] at h
  | cons e rest ih =>
    intro c j h
    obtain ⟨k, b⟩ := e
    rw [List.lookup_cons] at h
    by_cases hk : c = k
    · subst hk
      rw [beq_self_eq_true] at h
      simp only at h
      obtain rfl : b = j := by
        have := h
        simp at this
        exact this
      exact List.mem_cons_self _ _
    · rw [beq_false_of_ne hk] at h
      simp only at h
      exact List.mem_cons_of_mem _ (ih h)

lemma lookup_mem_keys {m : List (List Nat × Nat)} {c : List Nat} {j : Nat}
    (h : m.lookup c = some j) : c ∈ m.map Prod.fst := by
  exact List.mem_map.mpr ⟨(c, j), lookup_mem_pair h, rfl⟩

lemma aux_keys_mono (cells : List (List Nat)) :
    ∀ (m : List (List Nat × Nat)) (i : Nat) (c : List Nat),
      c ∈ m.map Prod.fst →
        c ∈ ((isolateColorsAux cells m i).1).map Prod.fst := by
  induction cells with
  | nil => intro m i c h; exact h
  | cons color rest ih =>
    intro m i c h
    by_cases hb : color = blackKey
    · rw [aux_cons_black hb]; exact ih m i c h
    · cases hl : m.lookup color with
      | some j => rw [aux_cons_found hb hl]; exact ih m i c h
      | none =>
        rw [aux_cons_new hb hl]
        exact ih _ _ c (by simp only [List.map_append, List.mem_append]; exact Or.inl h)

lemma aux_mem_keys (cells : List (List Nat)) :
    ∀ (m : List (List Nat × Nat)) (i : Nat) (c : List Nat),
      c ∈ cells → c ≠ blackKey →
        c ∈ ((isolateColorsAux cells m i).1).map Prod.fst := by
  induction cells with
  | nil => intro m i c h; simp at h
  | cons color rest ih =>
    intro m i c hmem hcb
    rcases List.mem_cons.mp hmem with rfl | hmem2
    · by_cases hb : c = blackKey
      · exact absurd hb hcb
      · cases hl : m.lookup c with
        | some j =>
          rw [aux_cons_found hb hl]
          exact aux_keys_mono rest m i c (lookup_mem_keys hl)
        | none =>
          rw [aux_cons_new hb hl]
          exact aux_keys_mono rest _ _ c
            (by simp only [List.map_append, List.mem_append]; right; simp)
    · by_cases hb : color = blackKey
      · rw [aux_cons_black hb]; exact ih m i c hmem2 hcb
      · cases hl : m.lookup color with
        | some j => rw [aux_cons_found hb hl]; exact ih m i c hmem2 hcb
        | none => rw [aux_cons_new hb hl]; exact ih _ _ c hmem2 hcb

lemma aux_black_not_key (cells : List (List Nat)) :
    ∀ (m : List (List Nat × Nat)) (i : Nat),
      blackKey ∉ m.map Prod.fst →
        blackKey ∉ ((isolateColorsAux cells m i).1).map Prod.fst := by
  induction cells with
  | nil => intro m i h; exact h
  | cons color rest ih =>
    intro m i h
    by_cases hb : color = blackKey
    · rw [aux_cons_black hb]; exact ih m i h
    · cases hl : m.lookup color with
      | some j => rw [aux_cons_found hb hl]; exact ih m i h
      | none =>
        rw [aux_cons_new hb hl]
        refine ih _ _ ?_
        simp only [List.map_append, List.mem_append]
        rintro (hmem | hmem)
        · exact h hmem
        · simp at hmem
          exact hb hmem.symm

lemma aux_len (cells : List (List Nat)) :
    ∀ (m : List (List Nat × Nat)) (i : Nat),
      ((isolateColorsAux cells m i).2).length = cells.length := by
  induction cells with
  | nil => intro m i; rfl
  | cons color rest ih =>
    intro m i
    by_cases hb : color = blackKey
    · rw [aux_cons_black hb]; simp [ih]
    · cases hl : m.lookup color with
      | some j => rw [aux_cons_found hb hl]; simp [ih]
      | none => rw [aux_cons_new hb hl]; simp [ih]

lemma aux_getElem_black (cells : List (List Nat)) :
    ∀ (m : List (List Nat × Nat)) (i j : Nat),
      cells[j]? = some blackKey →
        ((isolateColorsAux cells m i).2)[j]? = some (-1) := by
  induction cells with
  | nil => intro m i j h; simp at h
  | cons color rest ih =>
    intro m i j h
    cases j with
    | zero =>
      simp only [List.getElem?_cons_zero, Option.some_inj] at h
      rw [aux_cons_black h]
      simp
    | succ j2 =>
      simp only [List.getElem?_cons_succ] at h
      by_cases hb : color = blackKey
      · rw [aux_cons_black hb]
        simpa using ih m i j2 h
      · cases hl : m.lookup color with
        | some jj =>
          rw [aux_cons_found hb hl]
          simpa using ih m i j2 h
        | none =>
          rw [aux_cons_new hb hl]
          simpa using ih _ _ j2 h

lemma aux_invariant (cells : List (List Nat)) :
    ∀ (m : List (List Nat × Nat)) (i : Nat),
      (∀ e ∈ m, e.2 < i) → m.length = i →
        i ≤ ((isolateColorsAux cells m i).1).length ∧
        (∀ e ∈ (isolateColorsAux cells m i).1,
          e.2 < ((isolateColorsAux cells m i).1).length) ∧
        (∀ v ∈ (isolateColorsAux cells m i).2,
          v = -1 ∨ (0 ≤ v ∧ v < (((isolateColorsAux cells m i).1).length : Int))) := by
  induction cells with
  | nil =>
    intro m i hv hlen
    refine ⟨?_, ?_, ?_⟩
    · show i ≤ m.length
      omega
    · intro e he
      have he2 : e.2 < i := hv e he
      show e.2 < m.length
      omega
    · intro v hv2
      simp [isolateColorsAux] at hv2
  | cons color rest ih =>
    intro m i hv hlen
    by_cases hb : color = blackKey
    · rw [aux_cons_black hb]
      obtain ⟨h1, h2, h3⟩ := ih m i hv hlen
      refine ⟨h1, h2, ?_⟩
      intro v hv2
      rcases List.mem_cons.mp hv2 with rfl | hv3
      · exact Or.inl rfl
      · exact h3 v hv3
    · cases hl : m.lookup color with
      | some j =>
        rw [aux_cons_found hb hl]
        obtain ⟨h1, h2, h3⟩ := ih m i hv hlen
        refine ⟨h1, h2, ?_⟩
        intro v hv2
        rcases List.mem_cons.mp hv2 with rfl | hv3
        · right
          have hje : ((color, j) : List Nat × Nat) ∈ m := lookup_mem_pair hl
          have hji : j < i := hv (color, j) hje
          have hjl : j < ((isolateColorsAux rest m i).1).length := by omega
          exact ⟨by exact_mod_cast Nat.zero_le j, by exact_mod_cast hjl⟩
        · exact h3 v hv3
      | none =>
        rw [aux_cons_new hb hl]
        have hme : ∀ e ∈ m ++ [(color, i)], e.2 < i + 1 := by
          intro e he
          rcases List.mem_append.mp he with he2 | he2
          · have := hv e he2; omega
          · simp only [List.mem_singleton] at he2
            subst he2
            show i < i + 1
            omega
        have hlen2 : (m ++ [(color, i)]).length = i + 1 := by
          simp [hlen]
        obtain ⟨h1, h2, h3⟩ := ih _ _ hme hlen2
        refine ⟨?_, h2, ?_⟩
        · show i ≤ ((isolateColorsAux rest (m ++ [(color, i)]) (i + 1)).1).length
          omega
        · intro v hv3
          rcases List.mem_cons.mp hv3 with rfl | hv4
          · right
            refine ⟨by exact_mod_cast Nat.zero_le i, ?_⟩
            have hil :
                i < ((isolateColorsAux rest (m ++ [(color, i)]) (i + 1)).1).length := by
              omega
            exact_mod_cast hil
          · exact h3 v hv4

lemma insertLe_perm {α : Type} (f : α → Nat) (a : α) :
    ∀ l : List α, (insertLe f a l).Perm (a :: l) := by
  intro l
  induction l with
  | nil => exact List.Perm.refl _
  | cons b rest ih =>
    rw [insertLe]
    by_cases hf : f a ≤ f b
    · rw [if_pos hf]
    · rw [if_neg hf]
      exact (ih.cons b).trans (List.Perm.swap a b rest)

lemma sortLe_perm {α : Type} (f : α → Nat) :
    ∀ l : List α, (sortLe f l).Perm l := by
  intro l
  induction l with
  | nil => exact List.Perm.refl _
  | cons x xs ih =>
    exact (insertLe_perm f x (sortLe f xs)).trans (ih.cons x)

lemma objectValuesColors_perm (m : List (List Nat × Nat)) :
    (objectValuesColors m).Perm m :=
  ((sortLe_perm _ _).append_right _).trans (List.filter_append_perm _ m)

lemma isolateColors_len (cells : List (List Nat)) :
    ((isolateColors cells).2).length = cells.length :=
  aux_len cells [] 0

lemma isolateColors_registry_len (cells : List (List Nat)) :
    ((isolateColors cells).1).length =
      ((isolateColorsAux cells [] 0).1).length := by
  unfold isolateColors
  simp only [List.length_map]
  exact (objectValuesColors_perm _).length_eq

lemma isolateColors_mem_registry {cells : List (List Nat)} {c : List Nat}
    (hmem : c ∈ cells) (hcb : c ≠ blackKey) : c ∈ (isolateColors cells).1 := by
  have h := aux_mem_keys cells [] 0 c hmem hcb
  unfold isolateColors
  simp only [List.mem_map] at h ⊢
  obtain ⟨e, he, hfst⟩ := h
  exact ⟨e, (objectValuesColors_perm _).mem_iff.mpr he, hfst⟩

lemma isolateColors_black_not_mem (cells : List (List Nat)) :
    blackKey ∉ (isolateColors cells).1 := by
  intro h
  refine aux_black_not_key cells [] 0 (by simp) ?_
  unfold isolateColors at h
  simp only [List.mem_map] at h ⊢
  obtain ⟨e, he, hfst⟩ := h
  exact ⟨e, (objectValuesColors_perm _).mem_iff.mp he, hfst⟩

lemma isolateColors_bounds (cells : List (List Nat)) :
    ∀ v ∈ (isolateColors cells).2,
      v = -1 ∨ (0 ≤ v ∧ v < (((isolateColors cells).1).length : Int)) := by
  intro v hv
  have h := (aux_invariant cells [] 0 (by simp) rfl).2.2 v hv
  rw [isolateColors_registry_len]
  exact h

lemma isolateColors_black_at (cells : List (List Nat)) (j : Nat)
    (h : cells[j]? = some blackKey) :
    ((isolateColors cells).2)[j]? = some (-1) :=
  aux_getElem_black cells [] 0 j h

/-! ### Helper lemmas: nonempty chunking -/

lemma getLastD_mem {α : Type} :
    ∀ (l : List α) (d : α), l ≠ [] → l.getLastD d ∈ l := by
  intro l
  induction l with
  | nil => intro d h; exact absurd rfl h
  | cons a rest ih =>
    intro d _
    rw [List.getLastD_cons]
    cases hr : rest with
    | nil => simp [List.getLastD]
    | cons b bs =>
      rw [← hr]
      exact List.mem_cons_of_mem a (ih a (by rw [hr]; exact List.cons_ne_nil b bs))

lemma chunkBuffer_ne_nil {buf : List Nat} {c : Nat} (hb : buf ≠ [])
    (hc : 0 < c) : chunkBuffer buf c ≠ [] := by
  cases buf with
  | nil => exact absurd rfl hb
  | cons b rest =>
    unfold chunkBuffer
    simp only [List.length_cons, chunkBufferGo,
      if_neg (Nat.pos_iff_ne_zero.mp hc)]
    exact List.cons_ne_nil _ _

/-! ### Claim C2 (amended): the trailing partial group is kept -/

/-- C2 amended.  For every buffer of length at least 12 whose remaining
byte count after offset 12 is not a multiple of 3, the decoder does NOT
drop the trailing partial group: the last decoded cell has exactly
`(length - 12) % 3` bytes (1 or 2), and that short cell enters the
unique-color registry (its hex key, being 2 or 4 digits, can collide
with no 6-digit key and it is not the transparent sentinel), hence it
also receives a material block. -/
theorem C2_trailing_group_kept (data : List Nat) (h12 : 12 ≤ data.length)
    (hr : (data.length - 12) % 3 ≠ 0) :
    ((chunkBuffer (data.drop 12) 3).getLastD []).length =
      (data.length - 12) % 3 ∧
    (chunkBuffer (data.drop 12) 3).getLastD [] ∈
      (isolateColors (chunkBuffer (data.drop 12) 3)).1 := by
  have htl : (data.drop 12).length = data.length - 12 := List.length_drop 12 data
  have hr2 : (data.drop 12).length % 3 ≠ 0 := by rw [htl]; exact hr
  have hlast : ((chunkBuffer (data.drop 12) 3).getLastD []).length =
      (data.drop 12).length % 3 :=
    chunkBufferGo_getLastD (by norm_num) (data.drop 12).length (data.drop 12)
      le_rfl hr2
  have hne : data.drop 12 ≠ [] := by
    intro he
    rw [he] at htl
    simp only [List.length_nil] at htl
    rw [← htl] at hr
    simp at hr
  have hchne : chunkBuffer (data.drop 12) 3 ≠ [] :=
    chunkBuffer_ne_nil hne (by norm_num)
  have hmem : (chunkBuffer (data.drop 12) 3).getLastD [] ∈
      chunkBuffer (data.drop 12) 3 :=
    getLastD_mem _ [] hchne
  have hnb : (chunkBuffer (data.drop 12) 3).getLastD [] ≠ blackKey := by
    intro he
    have : ((chunkBuffer (data.drop 12) 3).getLastD []).length = 3 := by
      rw [he]; rfl
    rw [hlast] at this
    have := Nat.mod_lt (data.drop 12).length (show 0 < 3 by norm_num)
    omega
  exact ⟨by rw [hlast, htl], isolateColors_mem_registry hmem hnb⟩

/-- Witness for C2 amended at the 13-byte buffer with a single leftover
byte `7`. -/
theorem C2_trailing_group_kept_witness :
    ((chunkBuffer (([1, 0, 0, 0, 1, 0, 0, 0, 1, 0, 0, 0, 7] : List Nat).drop 12) 3).getLastD []).length =
      (([1, 0, 0, 0, 1, 0, 0, 0, 1, 0, 0, 0, 7] : List Nat).length - 12) % 3 ∧
    (chunkBuffer (([1, 0, 0, 0, 1, 0, 0, 0, 1, 0, 0, 0, 7] : List Nat).drop 12) 3).getLastD [] ∈
      (isolateColors (chunkBuffer (([1, 0, 0, 0, 1, 0, 0, 0, 1, 0, 0, 0, 7] : List Nat).drop 12) 3)).1 :=
  C2_trailing_group_kept [1, 0, 0, 0, 1, 0, 0, 0, 1, 0, 0, 0, 7]
    (by decide) (by decide)

/-! ### Helper lemmas: MTL block structure -/

lemma mtlBlocks_len (name : String) :
    ∀ (l : List (List String)) (i : Nat),
      (mtlBlocks name l i).length = l.length := by
  intro l
  induction l with
  | nil => intro i; rfl
  | cons material rest ih => intro i; simp [mtlBlocks, ih]

lemma mtlBlocks_getElem (name : String) :
    ∀ (l : List (List String)) (i j : Nat),
      (mtlBlocks name l i)[j]? =
        (l[j]?).map (fun material => mtlBlock name (i + j) material) := by
  intro l
  induction l with
  | nil => intro i j; simp [mtlBlocks]
  | cons material rest ih =>
    intro i j
    cases j with
    | zero => simp [mtlBlocks]
    | succ j2 =>
      simp only [mtlBlocks, List.getElem?_cons_succ]
      rw [ih (i + 1) j2]
      have harith : i + 1 + j2 = i + (j2 + 1) := by omega
      rw [harith]

/-! ### Claim C1 (amended): material rendering and Kd formatting -/

/-- C1 amended.  The material renderer emits one block per color in
registry order (the j-th block is `newmtl <name>-mat-<j>` followed by a
`Kd` line over the j-th registry color), and each Kd component is
`toFixed(6)` of the byte value divided by 255 — INCLUDING the zero byte,
which renders as `0.000000` (the `x === 0` shortcut only skips the
division, not the formatting); byte 255 renders `1.000000` and byte 128
renders `0.501961`. -/
theorem C1_mtl_format (colors : List (List Nat)) (name : String) :
    generateMTL colors name =
      "# CUB to OBJ v" ++ version ++ "\n" ++
        String.intercalate "\n"
          (mtlBlocks name (colors.map (fun c => c.map kdComponent)) 0) ∧
    (mtlBlocks name (colors.map (fun c => c.map kdComponent)) 0).length =
      colors.length ∧
    (∀ j, (mtlBlocks name (colors.map (fun c => c.map kdComponent)) 0)[j]? =
      (colors[j]?).map (fun color =>
        "newmtl " ++ matName (Int.ofNat j) name ++ "\n" ++
          "Kd " ++ String.intercalate " " (color.map kdComponent) ++ "\n")) ∧
    kdComponent 0 = "0.000000" ∧ kdComponent 255 = "1.000000" ∧
    kdComponent 128 = "0.501961" := by
  refine ⟨rfl, ?_, ?_, by decide, by decide, by decide⟩
  · rw [mtlBlocks_len]
    exact List.length_map colors _
  · intro j
    rw [mtlBlocks_getElem name _ 0 j, List.getElem?_map]
    cases colors[j]? with
    | none => rfl
    | some color => simp [mtlBlock]

/-! ### Helper lemmas: scan keys and groups -/

lemma foldl_firstAppearance_mem {α : Type} [DecidableEq α] :
    ∀ (l acc : List α) (x : α),
      x ∈ l.foldl (fun acc a => if a ∈ acc then acc else acc ++ [a]) acc →
        x ∈ acc ∨ x ∈ l := by
  intro l
  induction l with
  | nil => intro acc x h; exact Or.inl h
  | cons a rest ih =>
    intro acc x h
    rcases ih _ x h with h2 | h2
    · dsimp only at h2
      by_cases ha : a ∈ acc
      · rw [if_pos ha] at h2
        exact Or.inl h2
      · rw [if_neg ha] at h2
        rcases List.mem_append.mp h2 with h3 | h3
        · exact Or.inl h3
        · simp at h3
          exact Or.inr (by simp [h3])
    · exact Or.inr (List.mem_cons_of_mem a h2)

lemma firstAppearance_subset {α : Type} [DecidableEq α] {l : List α} {x : α}
    (h : x ∈ firstAppearance l) : x ∈ l := by
  rcases foldl_firstAppearance_mem l [] x h with h2 | h2
  · simp at h2
  · exact h2

lemma mem_orderedKeys {width depth height : Nat} {ci : List Int}
    {k : Option Int} (hk : k ∈ orderedKeys width depth height ci) :
    k ∈ firstKeys width depth height ci := by
  unfold orderedKeys at hk
  rcases List.mem_append.mp hk with hk2 | hk2
  · exact (List.mem_filter.mp ((sortLe_perm _ _).mem_iff.mp hk2)).1
  · exact (List.mem_filter.mp hk2).1

lemma firstKeys_ne_neg1 {width depth height : Nat} {ci : List Int}
    {k : Option Int} (hk : k ∈ firstKeys width depth height ci) :
    k ≠ some (-1) := by
  have h2 := firstAppearance_subset hk
  have h3 := List.of_mem_filter h2
  exact bne_iff_ne.mp h3

lemma firstKeys_exists_point {width depth height : Nat} {ci : List Int}
    {k : Option Int} (hk : k ∈ firstKeys width depth height ci) :
    ∃ p ∈ scanPoints width depth height,
      cellKeyAt ci width depth height p = k := by
  have h2 := firstAppearance_subset hk
  have h3 := (List.mem_filter.mp h2).1
  obtain ⟨p, hp, hpk⟩ := List.mem_map.mp h3
  exact ⟨p, hp, hpk⟩

lemma scanPoints_bounds {width depth height : Nat} {p : Nat × Nat × Nat}
    (hp : p ∈ scanPoints width depth height) :
    p.1 < width ∧ p.2.1 < depth ∧ p.2.2 < height := by
  unfold scanPoints at hp
  obtain ⟨x, hx, hp2⟩ := List.mem_flatMap.mp hp
  obtain ⟨y, hy, hp3⟩ := List.mem_flatMap.mp hp2
  obtain ⟨z, hz, rfl⟩ := List.mem_map.mp hp3
  exact ⟨List.mem_range.mp hx, List.mem_range.mp hy, List.mem_range.mp hz⟩

lemma xyzToIndex_lt {x y z width depth height : Nat} (hx : x < width)
    (hy : y < depth) (hz : z < height) :
    xyzToIndex x y z width depth height < width * depth * height := by
  unfold xyzToIndex
  have h1 : y + depth * z + 1 ≤ depth * (z + 1) := by
    calc y + depth * z + 1 = (y + 1) + depth * z := by ring
    _ ≤ depth + depth * z := by omega
    _ = depth * (z + 1) := by ring
  have h2 : depth * (z + 1) ≤ depth * height :=
    Nat.mul_le_mul_left depth hz
  have hfinal : x + width * (y + depth * z) + 1 ≤ width * (depth * height) := by
    calc x + width * (y + depth * z) + 1
        = (x + 1) + width * (y + depth * z) := by ring
    _ ≤ width + width * (y + depth * z) := by omega
    _ = width * (y + depth * z + 1) := by ring
    _ ≤ width * (depth * (z + 1)) := Nat.mul_le_mul_left width h1
    _ ≤ width * (depth * height) := Nat.mul_le_mul_left width h2
  rw [Nat.mul_assoc]
  omega

/-! ### Claim C4: the transparent sentinel is fully excluded -/

/-- C4.  Every cell equal to the byte triple `(0,0,0)` is mapped to the
exclusion marker `-1`, the triple never appears in the unique-color
registry (hence gets no material block, the MTL having exactly one block
per registry entry), and no scan group of `generateOBJ` — the only
source of vertex and face lines — carries the `-1` key or contains a
point whose cell is the sentinel. -/
theorem C4_transparent_excluded (cells : List (List Nat))
    (width depth height : Nat) :
    ((isolateColors cells).2).length = cells.length ∧
    (∀ j : Nat, cells[j]? = some blackKey →
      ((isolateColors cells).2)[j]? = some (-1)) ∧
    blackKey ∉ (isolateColors cells).1 ∧
    (∀ g ∈ objGroups width depth height (isolateColors cells).2,
      g.1 ≠ some (-1) ∧
        ∀ p ∈ g.2,
          cells[xyzToIndex p.1 p.2.1 p.2.2 width depth height]? ≠
            some blackKey) := by
  refine ⟨isolateColors_len cells, ?_, isolateColors_black_not_mem cells, ?_⟩
  · intro j hj
    exact isolateColors_black_at cells j hj
  intro g hg
  obtain ⟨k, hk, rfl⟩ := List.mem_map.mp hg
  refine ⟨firstKeys_ne_neg1 (mem_orderedKeys hk), ?_⟩
  intro p hp hblack
  have hkey := (List.mem_filter.mp hp).2
  have hkey2 : cellKeyAt (isolateColors cells).2 width depth height p = k := by
    exact beq_iff_eq.mp hkey
  have hneg := isolateColors_black_at cells _ hblack
  rw [cellKeyAt] at hkey2
  rw [hneg] at hkey2
  exact firstKeys_ne_neg1 (mem_orderedKeys hk) hkey2.symm

/-- Witness for C4 at the cells `[[0,0,0], [9,9,9]]` in a 1x1x2 grid:
the sentinel cell receives index `-1` and is absent from the registry. -/
theorem C4_transparent_excluded_witness :
    ((isolateColors [[0, 0, 0], [9, 9, 9]]).2)[0]? = some (-1) ∧
    blackKey ∉ (isolateColors [[0, 0, 0], [9, 9, 9]]).1 :=
  ⟨(C4_transparent_excluded [[0, 0, 0], [9, 9, 9]] 1 1 2).2.1 0 (by decide),
   (C4_transparent_excluded [[0, 0, 0], [9, 9, 9]] 1 1 2).2.2.1⟩

/-! ### Claim C10: every referenced material is declared -/

/-- C10.  When the decoded cell count covers the declared grid, every
material name placed after `usemtl ` in an object block of the OBJ
output also occurs after `newmtl ` in a block of the MTL output built
from the same cells: every rendered group key is a registry index in
`[0, number of unique colors)`. -/
theorem C10_usemtl_defined (width depth height : Nat)
    (cells : List (List Nat)) (name : String)
    (hlen : width * depth * height ≤ cells.length) :
    ∀ s ∈ objUsemtlNames width depth height (isolateColors cells).2 name,
      s ∈ mtlNewmtlNames (isolateColors cells).1 name := by
  intro s hs
  obtain ⟨g, hg, rfl⟩ := List.mem_map.mp hs
  obtain ⟨k, hk, rfl⟩ := List.mem_map.mp hg
  dsimp only
  have hk1 := mem_orderedKeys hk
  have hne := firstKeys_ne_neg1 hk1
  obtain ⟨p, hp, hpk⟩ := firstKeys_exists_point hk1
  obtain ⟨hx, hy, hz⟩ := scanPoints_bounds hp
  have hidx : xyzToIndex p.1 p.2.1 p.2.2 width depth height <
      width * depth * height := xyzToIndex_lt hx hy hz
  have hidx2 : xyzToIndex p.1 p.2.1 p.2.2 width depth height <
      ((isolateColors cells).2).length := by
    rw [isolateColors_len]
    omega
  rw [cellKeyAt, List.getElem?_eq_getElem hidx2] at hpk
  set v := ((isolateColors cells).2)[xyzToIndex p.1 p.2.1 p.2.2 width depth height]
    with hv
  have hvmem : v ∈ (isolateColors cells).2 := List.getElem_mem hidx2
  rcases isolateColors_bounds cells v hvmem with hveq | ⟨hv0, hvlt⟩
  · rw [hveq] at hpk
    exact absurd hpk.symm hne
  · refine List.mem_map.mpr ⟨v.toNat, List.mem_range.mpr (by omega), ?_⟩
    rw [← hpk]
    unfold matName keyName
    have hofnat : Int.ofNat v.toNat = v := by
      rw [Int.ofNat_eq_natCast]
      exact_mod_cast Int.toNat_of_nonneg hv0
    rw [hofnat]

/-- Witness for C10 at a 1x1x1 grid with the single cell `[5,5,5]`. -/
theorem C10_usemtl_defined_witness :
    "x-mat-0" ∈ mtlNewmtlNames (isolateColors [[5, 5, 5]]).1 "x" :=
  C10_usemtl_defined 1 1 1 [[5, 5, 5]] "x" (by decide) "x-mat-0" (by decide)

/-! ### Helper lemmas: sortedness, nodup, string tails -/

lemma insertLe_sorted {α : Type} (f : α → Nat) (a : α) :
    ∀ l : List α, l.Pairwise (fun x y => f x ≤ f y) →
      (insertLe f a l).Pairwise (fun x y => f x ≤ f y) := by
  intro l
  induction l with
  | nil => intro _; exact List.pairwise_singleton _ _
  | cons b rest ih =>
    intro hl
    rw [insertLe]
    rcases List.pairwise_cons.mp hl with ⟨hb, hrest⟩
    by_cases hf : f a ≤ f b
    · rw [if_pos hf]
      refine List.pairwise_cons.mpr ⟨?_, hl⟩
      intro x hx
      rcases List.mem_cons.mp hx with rfl | hx2
      · exact hf
      · exact le_trans hf (hb x hx2)
    · rw [if_neg hf]
      refine List.pairwise_cons.mpr ⟨?_, ih hrest⟩
      intro x hx
      have hx2 := (insertLe_perm f a rest).mem_iff.mp hx
      rcases List.mem_cons.mp hx2 with rfl | hx3
      · omega
      · exact hb x hx3

lemma sortLe_sorted {α : Type} (f : α → Nat) :
    ∀ l : List α, (sortLe f l).Pairwise (fun x y => f x ≤ f y) := by
  intro l
  induction l with
  | nil => exact List.Pairwise.nil
  | cons x xs ih => exact insertLe_sorted f x (sortLe f xs) ih

lemma foldl_firstAppearance_nodup {α : Type} [DecidableEq α] :
    ∀ (l acc : List α), acc.Nodup →
      (l.foldl (fun acc a => if a ∈ acc then acc else acc ++ [a]) acc).Nodup := by
  intro l
  induction l with
  | nil => intro acc h; exact h
  | cons a rest ih =>
    intro acc h
    simp only [List.foldl_cons]
    by_cases ha : a ∈ acc
    · rw [if_pos ha]; exact ih acc h
    · rw [if_neg ha]
      refine ih _ (List.Nodup.append h (List.nodup_singleton a) ?_)
      exact List.disjoint_singleton.mpr ha

lemma firstAppearance_nodup {α : Type} [DecidableEq α] (l : List α) :
    (firstAppearance l).Nodup :=
  foldl_firstAppearance_nodup l [] List.nodup_nil

lemma string_join_concat (a : List String) (x : String) :
    String.join (a ++ [x]) = String.join a ++ x := by
  unfold String.join
  rw [List.foldl_append]
  rfl

lemma append_ends_newline (a b c : String) :
    ∃ s : String, a ++ (b ++ (c ++ "\n")) = s ++ "\n" :=
  ⟨a ++ (b ++ c), by simp only [String.append_assoc]⟩

/-! ### Helper lemmas: group keys are numeric under valid index arrays -/

lemma firstKeys_numeric {width depth height : Nat} {ci : List Int}
    (hv : ∀ v ∈ ci, -1 ≤ v ∧ v < 4294967295)
    (hlen : width * depth * height ≤ ci.length) :
    ∀ k ∈ firstKeys width depth height ci, jsNumericKey k = true := by
  intro k hk
  obtain ⟨p, hp, hpk⟩ := firstKeys_exists_point hk
  obtain ⟨hx, hy, hz⟩ := scanPoints_bounds hp
  have hidx2 : xyzToIndex p.1 p.2.1 p.2.2 width depth height < ci.length :=
    lt_of_lt_of_le (xyzToIndex_lt hx hy hz) hlen
  rw [cellKeyAt, List.getElem?_eq_getElem hidx2] at hpk
  have hvmem : ci[xyzToIndex p.1 p.2.1 p.2.2 width depth height] ∈ ci :=
    List.getElem_mem hidx2
  obtain ⟨hge, hlt⟩ := hv _ hvmem
  have hne : k ≠ some (-1) := firstKeys_ne_neg1 hk
  rw [← hpk] at hne ⊢
  have hne2 : ci[xyzToIndex p.1 p.2.1 p.2.2 width depth height] ≠ -1 := by
    intro he
    rw [he] at hne
    exact hne rfl
  simp only [jsNumericKey, Bool.and_eq_true, decide_eq_true_eq]
  omega

lemma orderedKeys_eq_sort {width depth height : Nat} {ci : List Int}
    (hv : ∀ v ∈ ci, -1 ≤ v ∧ v < 4294967295)
    (hlen : width * depth * height ≤ ci.length) :
    orderedKeys width depth height ci =
      sortLe (fun k => (keyVal k).toNat)
        (firstKeys width depth height ci) := by
  unfold orderedKeys
  dsimp only
  rw [List.filter_eq_self.mpr (firstKeys_numeric hv hlen)]
  rw [List.filter_eq_nil_iff.mpr ?_, List.append_nil]
  intro k hk
  rw [firstKeys_numeric hv hlen k hk]
  simp

lemma group_points_ne_nil {width depth height : Nat} {ci : List Int}
    {k : Option Int} (hk : k ∈ orderedKeys width depth height ci) :
    (scanPoints width depth height).filter
      (fun p => cellKeyAt ci width depth height p == k) ≠ [] := by
  obtain ⟨p, hp, hpk⟩ := firstKeys_exists_point (mem_orderedKeys hk)
  intro he
  have hmem : p ∈ (scanPoints width depth height).filter
      (fun p => cellKeyAt ci width depth height p == k) :=
    List.mem_filter.mpr ⟨hp, by rw [hpk]; exact beq_self_eq_true k⟩
  rw [he] at hmem
  simp at hmem

lemma objBlock_ends (name : String) (k : Option Int)
    (points : List (Nat × Nat × Nat)) (start : Nat) (hp : points ≠ []) :
    ∃ s, objBlock name k points start = s ++ "\n" := by
  cases points with
  | nil => exact absurd rfl hp
  | cons p rest =>
    have hfaces : (((groupCubes (p :: rest) start).map Prod.snd).flatten) ≠ [] := by
      simp [groupCubes, pointToCube, defaultCubeFaces]
    rcases List.eq_nil_or_concat
        (((groupCubes (p :: rest) start).map Prod.snd).flatten) with hnil | hcat
    · exact absurd hnil hfaces
    · obtain ⟨L, f0, hLf⟩ := hcat
      unfold objBlock
      rw [hLf, List.concat_eq_append, List.map_append, List.map_singleton,
        string_join_concat]
      unfold faceLine
      exact append_ends_newline _ _ _

/-! ### Claim C3 (amended): object blocks in ascending key order -/

/-- C3 amended.  For every grid and per-cell color index array whose
entries are valid JS array-index keys or the exclusion marker (every
entry in `[-1, 2^32 - 1)`) and which covers the grid, `generateOBJ`
renders one object block per distinct non-excluded color index; the
blocks appear in ASCENDING NUMERIC ORDER of the color index — the
iteration order of the numeric keys of a JS object — not in scan
discovery order; blocks are joined with a newline and each block ends
with a newline, so consecutive blocks are separated by a blank line. -/
theorem C3_blocks_ascending (width depth height : Nat) (ci : List Int)
    (name : String) (hv : ∀ v ∈ ci, -1 ≤ v ∧ v < 4294967295)
    (hlen : width * depth * height ≤ ci.length) :
    (orderedKeys width depth height ci).Perm
      (firstKeys width depth height ci) ∧
    (firstKeys width depth height ci).Nodup ∧
    (orderedKeys width depth height ci).Pairwise
      (fun a b => keyVal a < keyVal b) ∧
    generateOBJ width depth height ci name =
      "# CUB to OBJ v" ++ version ++ "\n" ++ "mtllib " ++ name ++ ".mtl\n" ++
        String.intercalate "\n"
          (renderObjects name (objGroups width depth height ci) 0) ∧
    (∀ b ∈ renderObjects name (objGroups width depth height ci) 0,
      ∃ s, b = s ++ "\n") := by
  have hsort := orderedKeys_eq_sort hv hlen
  have hperm : (orderedKeys width depth height ci).Perm
      (firstKeys width depth height ci) := by
    rw [hsort]
    exact sortLe_perm _ _
  have hnodup : (firstKeys width depth height ci).Nodup :=
    firstAppearance_nodup _
  refine ⟨hperm, hnodup, ?_, rfl, ?_⟩
  · have hle : (orderedKeys width depth height ci).Pairwise
        (fun a b => (keyVal a).toNat ≤ (keyVal b).toNat) := by
      rw [hsort]
      exact sortLe_sorted _ _
    have hne : (orderedKeys width depth height ci).Pairwise (fun a b => a ≠ b) :=
      (hnodup.perm hperm.symm)
    refine (hle.and hne).imp_of_mem ?_
    intro a b ha hb hab
    have hna := firstKeys_numeric hv hlen a (hperm.subset ha)
    have hnb := firstKeys_numeric hv hlen b (hperm.subset hb)
    cases a with
    | none => simp [jsNumericKey] at hna
    | some va =>
      cases b with
      | none => simp [jsNumericKey] at hnb
      | some vb =>
        simp only [jsNumericKey, Bool.and_eq_true, decide_eq_true_eq] at hna hnb
        have hvab : va ≠ vb := by
          intro he
          exact hab.2 (by rw [he])
        show va < vb
        obtain ⟨h1, h2⟩ := hab
        simp only [keyVal] at h1
        omega
  · intro b hb
    -- each rendered block comes from a group with a nonempty point list
    suffices hsuff : ∀ (gs : List (Option Int × List (Nat × Nat × Nat))) (s : Nat),
        (∀ g ∈ gs, g.2 ≠ []) → ∀ b ∈ renderObjects name gs s, ∃ t, b = t ++ "\n" by
      refine hsuff _ 0 ?_ b hb
      intro g hg
      obtain ⟨k, hk, rfl⟩ := List.mem_map.mp hg
      exact group_points_ne_nil hk
    intro gs
    induction gs with
    | nil => intro s _ b2 hb2; simp [renderObjects] at hb2
    | cons g rest ih =>
      intro s hne b2 hb2
      rw [renderObjects] at hb2
      rcases List.mem_cons.mp hb2 with rfl | hb3
      · exact objBlock_ends name g.1 g.2 s (hne g (List.mem_cons_self g rest))
      · exact ih _ (fun g2 hg2 => hne g2 (List.mem_cons_of_mem g hg2)) b2 hb3

/-- Witness for C3 amended at the counterexample grid (2x1x2, index
array `[-1, 0, 1, -1]`): the ordered keys are a permutation of the
discovered keys and strictly ascending. -/
theorem C3_blocks_ascending_witness :
    (orderedKeys 2 1 2 [-1, 0, 1, -1]).Perm (firstKeys 2 1 2 [-1, 0, 1, -1]) ∧
    (orderedKeys 2 1 2 [-1, 0, 1, -1]).Pairwise
      (fun a b => keyVal a < keyVal b) :=
  ⟨(C3_blocks_ascending 2 1 2 [-1, 0, 1, -1] "a" (by decide) (by decide)).1,
   (C3_blocks_ascending 2 1 2 [-1, 0, 1, -1] "a" (by decide) (by decide)).2.2.1⟩

/-! ### Claim C7: the cube counter is global and face indices in range -/

lemma groupCubes_append :
    ∀ (l₁ l₂ : List (Nat × Nat × Nat)) (s : Nat),
      groupCubes (l₁ ++ l₂) s =
        groupCubes l₁ s ++ groupCubes l₂ (s + l₁.length) := by
  intro l₁
  induction l₁ with
  | nil => intro l₂ s; simp [groupCubes]
  | cons p rest ih =>
    intro l₂ s
    simp only [List.cons_append, groupCubes, List.length_cons]
    show pointToCube p s :: groupCubes (rest ++ l₂) (s + 1) =
      pointToCube p s :: (groupCubes rest (s + 1) ++
        groupCubes l₂ (s + (rest.length + 1)))
    rw [ih]
    have harith : s + 1 + rest.length = s + (rest.length + 1) := by omega
    rw [harith]

lemma allCubes_eq_groupCubes :
    ∀ (gs : List (Option Int × List (Nat × Nat × Nat))) (s : Nat),
      allCubes gs s = groupCubes ((gs.map Prod.snd).flatten) s := by
  intro gs
  induction gs with
  | nil => intro s; rfl
  | cons g rest ih =>
    intro s
    simp only [allCubes, List.map_cons, List.flatten_cons, groupCubes_append, ih]

lemma groupCubes_getElem :
    ∀ (points : List (Nat × Nat × Nat)) (s k : Nat),
      (groupCubes points s)[k]? =
        (points[k]?).map (fun p => pointToCube p (s + k)) := by
  intro points
  induction points with
  | nil => intro s k; simp [groupCubes]
  | cons p rest ih =>
    intro s k
    cases k with
    | zero => simp [groupCubes]
    | succ k2 =>
      simp only [groupCubes, List.getElem?_cons_succ]
      rw [ih (s + 1) k2]
      have harith : s + 1 + k2 = s + (k2 + 1) := by omega
      rw [harith]

lemma defaultCubeFaces_bounds :
    ∀ face ∈ defaultCubeFaces, ∀ u ∈ face, 1 ≤ u ∧ u ≤ 8 := by decide

/-- C7.  The cube counter of the rendering pass is global: the k-th
emitted cube over the whole block sequence (groups concatenated in
render order) is `pointToCube p k` for the k-th emitted point, with no
reset between groups; consequently every face index of the k-th cube
lies in `[8k+1, 8k+8]`, is bounded by 8 times the total number of
emitted points (the size of the concatenated vertex pool), and is
strictly greater than every face index of every earlier cube. -/
theorem C7_global_cube_counter (width depth height : Nat) (ci : List Int) :
    allCubes (objGroups width depth height ci) 0 =
      groupCubes (allGroupPoints width depth height ci) 0 ∧
    (∀ k : Nat, (allCubes (objGroups width depth height ci) 0)[k]? =
      ((allGroupPoints width depth height ci)[k]?).map
        (fun p => pointToCube p k)) ∧
    (∀ (k : Nat) (p : Nat × Nat × Nat), ∀ f ∈ (pointToCube p k).2, ∀ v ∈ f,
      8 * k + 1 ≤ v ∧ v ≤ 8 * k + 8) ∧
    (∀ k : Nat, k < (allGroupPoints width depth height ci).length →
      ∀ (p : Nat × Nat × Nat), ∀ f ∈ (pointToCube p k).2, ∀ v ∈ f,
        v ≤ 8 * (allGroupPoints width depth height ci).length) ∧
    (∀ k1 k2 : Nat, k1 < k2 → ∀ (p1 p2 : Nat × Nat × Nat),
      ∀ f1 ∈ (pointToCube p1 k1).2, ∀ v1 ∈ f1,
      ∀ f2 ∈ (pointToCube p2 k2).2, ∀ v2 ∈ f2, v1 < v2) := by
  have hbounds : ∀ (k : Nat) (p : Nat × Nat × Nat),
      ∀ f ∈ (pointToCube p k).2, ∀ v ∈ f,
        8 * k + 1 ≤ v ∧ v ≤ 8 * k + 8 := by
    intro k p f hf v hv
    simp only [pointToCube, List.mem_map] at hf
    obtain ⟨face, hface, rfl⟩ := hf
    simp only [List.mem_map] at hv
    obtain ⟨u, hu, rfl⟩ := hv
    obtain ⟨h1, h2⟩ := defaultCubeFaces_bounds face hface u hu
    simp only [List.length_cons, List.length_nil]
    omega
  refine ⟨allCubes_eq_groupCubes _ 0, ?_, hbounds, ?_, ?_⟩
  · intro k
    rw [allCubes_eq_groupCubes, groupCubes_getElem]
    simp [allGroupPoints]
  · intro k hk p f hf v hv
    have := hbounds k p f hf v hv
    omega
  · intro k1 k2 hk p1 p2 f1 hf1 v1 hv1 f2 hf2 v2 hv2
    have h1 := hbounds k1 p1 f1 hf1 v1 hv1
    have h2 := hbounds k2 p2 f2 hf2 v2 hv2
    omega

/-- Witness for C7 at a 1x1x1 grid with index array `[0]`: the first
face of cube 0 references vertex 1, inside `[1, 8]`. -/
theorem C7_global_cube_counter_witness :
    8 * 0 + 1 ≤ 1 ∧ 1 ≤ 8 * 0 + 8 :=
  (C7_global_cube_counter 1 1 1 [0]).2.2.1 0 (0, 0, 0) [1, 2, 4, 3]
    (by decide) 1 (by decide)

/-! ### Claim C6: cube mesh generation -/

/-- C6.  For every anchor point `(x, y, z)` and every `cubeIndex`, the
cube mesh generator returns exactly the 8 vertices
`(x,y,z), (x+1,y,z), (x,y+1,z), (x+1,y+1,z), (x,y,z+1), (x+1,y,z+1),
(x,y+1,z+1), (x+1,y+1,z+1)` in that order and exactly the 6 faces
`[1,2,4,3], [3,4,8,7], [7,8,6,5], [5,6,2,1], [3,7,5,1], [8,4,2,6]`
with `cubeIndex * 8` added to every index. -/
theorem C6_pointToCube (x y z cubeIndex : Nat) :
    pointToCube (x, y, z) cubeIndex =
      ([(x, y, z), (x + 1, y, z), (x, y + 1, z), (x + 1, y + 1, z),
        (x, y, z + 1), (x + 1, y, z + 1), (x, y + 1, z + 1),
        (x + 1, y + 1, z + 1)],
       [[1 + cubeIndex * 8, 2 + cubeIndex * 8, 4 + cubeIndex * 8, 3 + cubeIndex * 8],
        [3 + cubeIndex * 8, 4 + cubeIndex * 8, 8 + cubeIndex * 8, 7 + cubeIndex * 8],
        [7 + cubeIndex * 8, 8 + cubeIndex * 8, 6 + cubeIndex * 8, 5 + cubeIndex * 8],
        [5 + cubeIndex * 8, 6 + cubeIndex * 8, 2 + cubeIndex * 8, 1 + cubeIndex * 8],
        [3 + cubeIndex * 8, 7 + cubeIndex * 8, 5 + cubeIndex * 8, 1 + cubeIndex * 8],
        [8 + cubeIndex * 8, 4 + cubeIndex * 8, 2 + cubeIndex * 8, 6 + cubeIndex * 8]]) :=
  rfl

/-! ### Claim C8: short buffers fail the header read -/

/-- C8.  For every input buffer shorter than 12 bytes, the conversion
fails while reading the three u32 dimension fields (the read at offset 8
is out of range) and produces neither an OBJ nor an MTL string. -/
theorem C8_short_buffer (data : List Nat) (name : String)
    (h : data.length < 12) : convertCub data name = none := by
  have h8 : readUInt32LE data 8 = none := by
    unfold readUInt32LE
    rw [if_neg (by omega)]
  unfold convertCub
  rw [h8]
  cases readUInt32LE data 0 <;> cases readUInt32LE data 4 <;> rfl

/-- Witness for C8 at the concrete 3-byte buffer `[0, 1, 2]`. -/
theorem C8_short_buffer_witness :
    ([0, 1, 2] : List Nat).length < 12 ∧ convertCub [0, 1, 2] "file" = none :=
  ⟨by decide, C8_short_buffer [0, 1, 2] "file" (by decide)⟩

/-! ### Claim C1: material component formatting -/

/-- Counterexample to C1 as stated: a zero byte does NOT render as the
bare string `0`; `toFixed` applies to the result of the ternary, so it
renders as `0.000000`.  At the registry `[[0, 255, 128]]` the Kd line is
`Kd 0.000000 1.000000 0.501961`, not `Kd 0 1.000000 0.501961`. -/
theorem C1_zero_component_cex :
    generateMTL [[0, 255, 128]] "f" =
      "# CUB to OBJ v0.0.1\nnewmtl f-mat-0\nKd 0.000000 1.000000 0.501961\n" ∧
    generateMTL [[0, 255, 128]] "f" ≠
      "# CUB to OBJ v0.0.1\nnewmtl f-mat-0\nKd 0 1.000000 0.501961\n" := by
  exact ⟨rfl, by decide⟩

/-! ### Claim C5: dedup indices against JS object value order -/

/-- C5 fails on the code: with cells `[[170,0,0], [32,0,0]]` (hex keys
`aa0000` and `200000`), the JS object lifts the all-decimal key `200000`
in front, so `uniqueColors` is `[[32,0,0], [170,0,0]]` while the index
array is `[0, 1]`: cell 0 is assigned index 0 but its color sits at
position 1 of the returned registry. -/
theorem C5_registry_reorder :
    isolateColors [[170, 0, 0], [32, 0, 0]] =
      ([[32, 0, 0], [170, 0, 0]], [0, 1]) ∧
    (isolateColors [[170, 0, 0], [32, 0, 0]]).1[0]? ≠ some [170, 0, 0] := by
  exact ⟨rfl, by decide⟩

/-! ### Claim C2: trailing partial color group -/

/-- Counterexample to C2 as stated: for the 13-byte buffer declaring a
1x1x1 grid with a single leftover byte `7` after offset 12, the decoded
cell sequence is `[[7]]` (the partial group IS a cell), the registry
contains the partial group, and both outputs render it: the MTL gains a
material block with a one-component `Kd` line and the OBJ renders a cube
for it.  Nothing is silently dropped. -/
theorem C2_trailing_group_cex :
    chunkBuffer (([1, 0, 0, 0, 1, 0, 0, 0, 1, 0, 0, 0, 7] : List Nat).drop 12) 3 =
      [[7]] ∧
    (isolateColors [[7]]).1 = [[7]] ∧
    convertCub [1, 0, 0, 0, 1, 0, 0, 0, 1, 0, 0, 0, 7] "a" =
      some ("# CUB to OBJ v0.0.1\nmtllib a.mtl\no a-obj-0\nv 0 0 0\nv 1 0 0\nv 0 1 0\nv 1 1 0\nv 0 0 1\nv 1 0 1\nv 0 1 1\nv 1 1 1\nusemtl a-mat-0\ns off\nf 1 2 4 3\nf 3 4 8 7\nf 7 8 6 5\nf 5 6 2 1\nf 3 7 5 1\nf 8 4 2 6\n",
        "# CUB to OBJ v0.0.1\nnewmtl a-mat-0\nKd 0.027451\n") := by
  exact ⟨rfl, rfl, rfl⟩

/-! ### Claim C3: object block order -/

/-- Counterexample to C3 as stated: in the 2x1x2 grid with index array
`[-1, 0, 1, -1]`, the scan (x outermost, z innermost) discovers color
index 1 (at point `(0,0,1)`, flat index 2) before color index 0 (at
point `(1,0,0)`, flat index 1), yet the rendered OBJ places the block of
index 0 first: `Object.values` iterates the numeric keys of `byColor` in
ascending numeric order, not in discovery order. -/
theorem C3_discovery_order_cex :
    firstKeys 2 1 2 [-1, 0, 1, -1] = [some 1, some 0] ∧
    orderedKeys 2 1 2 [-1, 0, 1, -1] = [some 0, some 1] ∧
    generateOBJ 2 1 2 [-1, 0, 1, -1] "a" =
      "# CUB to OBJ v0.0.1\nmtllib a.mtl\no a-obj-0\nv 1 0 0\nv 2 0 0\nv 1 1 0\nv 2 1 0\nv 1 0 1\nv 2 0 1\nv 1 1 1\nv 2 1 1\nusemtl a-mat-0\ns off\nf 1 2 4 3\nf 3 4 8 7\nf 7 8 6 5\nf 5 6 2 1\nf 3 7 5 1\nf 8 4 2 6\n\no a-obj-1\nv 0 0 1\nv 1 0 1\nv 0 1 1\nv 1 1 1\nv 0 0 2\nv 1 0 2\nv 0 1 2\nv 1 1 2\nusemtl a-mat-1\ns off\nf 9 10 12 11\nf 11 12 16 15\nf 15 16 14 13\nf 13 14 10 9\nf 11 15 13 9\nf 16 12 10 14\n" := by
  exact ⟨by decide, by decide, rfl⟩

end Cub
